import Mathlib

/-!
Shallow embedding of the metadata-persistence protocol, task queue, and
tiered cache of `src/main.py` (simpleRawPicker), together with theorems
settling the frozen claims about them.
-/

namespace SRP

/-- The mutable per-photo metadata state carried by the `Photo` dataclass
(`src/main.py`, class `Photo`): the fields read and written by the
mutation, save and read-completion paths.  Locking is elided: every
embedded operation models one critical section executed under
`photo.lock`. -/
structure Photo where
  rating : Int
  color_label : String
  selected : Bool
  xmp_loaded : Bool
  is_dirty : Bool
  is_saving : Bool
  version : Nat
  saving_version : Nat
deriving Repr, DecidableEq

/-- The `data` dict passed to `update_xmp` / delivered by `_on_xmp_ready`:
an optional value per recognised key; `none` models a key that is absent
from the dict. -/
structure XmpUpdate where
  rating : Option Int
  color_label : Option String
  selected : Option Bool
deriving Repr, DecidableEq

/-- Completion signal emitted by the save-cleanup handler. -/
inductive SaveSignal where
  | saved
  | failed
deriving Repr, DecidableEq

/-- The completion handler `_write_task_with_cleanup` of
`CullingWidget.save_all_dirty_files` (`src/main.py:4200`), critical
section under `photo_obj.lock`: a write dispatched with snapshot version
`version` has finished with result `success`.  Stale completions
(`saving_version ≠ version`) leave the state untouched; otherwise
`is_saving` is cleared, and `is_dirty` is forced when a newer edit
arrived (`version` field ahead of the snapshot) or the write failed. -/
def write_task_with_cleanup (p : Photo) (success : Bool) (version : Nat) :
    Photo × Option SaveSignal :=
  if p.saving_version ≠ version then (p, none)
  else if p.version > version then
    ({ p with is_saving := false, is_dirty := true, saving_version := version }, none)
  else if success then
    ({ p with is_saving := false, saving_version := version }, some .saved)
  else
    ({ p with is_saving := false, is_dirty := true, saving_version := version }, some .failed)

/-- `CullingWidget._on_xmp_ready` (`src/main.py:3776`), critical section
under `photo.lock`: mark `xmp_loaded`, and apply the read sidecar values
to the photo only when it is neither dirty nor saving; each value is only
applied when present (`is not None`) and different from the current
field.  `version`, `is_dirty`, `is_saving` are never written here. -/
def on_xmp_ready (p : Photo) (data : XmpUpdate) : Photo :=
  let p0 := { p with xmp_loaded := true }
  if p0.is_dirty ∨ p0.is_saving then p0
  else
    let rating_changed : Bool := match data.rating with
      | some v => p0.rating != v
      | none => false
    let label_changed : Bool := match data.color_label with
      | some v => p0.color_label != v
      | none => false
    let selected_changed : Bool := match data.selected with
      | some v => p0.selected != v
      | none => false
    { p0 with
      rating := if rating_changed then data.rating.getD p0.rating else p0.rating
      color_label := if label_changed then data.color_label.getD p0.color_label else p0.color_label
      selected := if selected_changed then data.selected.getD p0.selected else p0.selected }

/-- Snapshot carried by a dispatched XMP write task: the payload dict
(rating, color_label, selected) and the snapshot `version`. -/
structure SaveTask where
  rating : Int
  color_label : String
  selected : Bool
  version : Nat
deriving Repr, DecidableEq

/-- The per-photo dispatch step of `CullingWidget.save_all_dirty_files`
(`src/main.py:4181` loop body), critical section under `photo.lock`:
photos that are not dirty or already saving are skipped; otherwise the
current fields and version are snapshotted into a task, `is_dirty` is
cleared and `is_saving` / `saving_version` are set. -/
def flush_photo (p : Photo) : Photo × Option SaveTask :=
  if ¬p.is_dirty ∨ p.is_saving then (p, none)
  else
    ({ p with is_dirty := false, is_saving := true, saving_version := p.version },
     some ⟨p.rating, p.color_label, p.selected, p.version⟩)

/-- The XMP dispatch loop of `CullingWidget.save_all_dirty_files`
(`src/main.py:4180`): apply `flush_photo` to every photo of the catalog,
collecting the dispatched write tasks in catalog order. -/
def save_all_dirty_files : List Photo → List Photo × List SaveTask
  | [] => ([], [])
  | p :: ps =>
    ((flush_photo p).1 :: (save_all_dirty_files ps).1,
     match (flush_photo p).2 with
     | some task => task :: (save_all_dirty_files ps).2
     | none => (save_all_dirty_files ps).2)

/-! ### Task queue with key-based coalescing (`CullingWidget._enqueue`) -/

/-- State of the coalescing task queue (`src/main.py:3246`): `pending` is
the `_pending_tasks` key set (modelled as a duplicate-free list in
insertion order), `queue` holds the keys of tasks pushed onto `_taskq`
but not yet popped by a worker, and `inflight` holds the keys of tasks a
worker has popped whose wrapper has not yet run its `finally` block. -/
structure QueueState (K : Type) where
  pending : List K
  queue : List K
  inflight : List K
deriving Repr, DecidableEq

/-- `CullingWidget._enqueue` (`src/main.py:3246`): under `_pending_lock`,
a key already pending is a no-op; otherwise the key is added to the
pending set and a wrapped task carrying the key is pushed. -/
def enqueueKey {K : Type} [DecidableEq K] (st : QueueState K) (k : K) : QueueState K :=
  if k ∈ st.pending then st
  else { st with pending := k :: st.pending, queue := st.queue ++ [k] }

/-- A worker pops the front task of the queue and starts executing it
(`CullingWidget._loader_loop`, `src/main.py:3134`). -/
def startNext {K : Type} (st : QueueState K) : QueueState K :=
  match st.queue with
  | [] => st
  | k :: rest => { st with queue := rest, inflight := st.inflight ++ [k] }

/-- The `finally` block of the `_wrap` closure built by `_enqueue`: when
the task for key `k` finishes executing, its key is discarded from the
pending set. -/
def finishTask {K : Type} [DecidableEq K] (st : QueueState K) (k : K) : QueueState K :=
  if k ∈ st.inflight then
    { pending := st.pending.filter (fun j => j ≠ k)
      queue := st.queue
      inflight := st.inflight.erase k }
  else st

/-- One interleaved event on the coalescing queue. -/
inductive QueueOp (K : Type) where
  | enq (k : K)
  | start
  | fin (k : K)
deriving Repr

/-- Apply one queue event. -/
def applyOp {K : Type} [DecidableEq K] (st : QueueState K) : QueueOp K → QueueState K
  | .enq k => enqueueKey st k
  | .start => startNext st
  | .fin k => finishTask st k

/-- Coalescing invariant: per key, at most one task is pending-or-in-flight,
and every queued or in-flight task's key is in the pending set. -/
def CoalesceInv {K : Type} [DecidableEq K] (st : QueueState K) : Prop :=
  (∀ k : K, (st.queue ++ st.inflight).count k ≤ 1) ∧
  (∀ k : K, k ∈ st.queue ++ st.inflight → k ∈ st.pending)

/-- Fold a burst of `_enqueue` calls (no dequeue or completion between
them). -/
def enqueueAll {K : Type} [DecidableEq K] (st : QueueState K) (ks : List K) : QueueState K :=
  ks.foldl enqueueKey st

/-! ### Queue flush with save-task restoration (`CullingWidget._flush_queue`) -/

/-- A queued task as seen by `_flush_queue` (`src/main.py:2983`): its
`_srp_task_key` (absent on tasks posted directly through `_post_task`,
such as the XMP save tasks), and, when the task is a metadata save task,
the photo it targets (by catalog index) and the snapshot version held in
`args[3]`. -/
structure FlushTask where
  key : Option Nat
  save : Option (Nat × Nat)
deriving Repr, DecidableEq

/-- The triple of mutable state `_flush_queue` acts on: the catalog
photos, the task queue in pop order, and the `_pending_tasks` key set. -/
structure FlushState where
  photos : List Photo
  queue : List FlushTask
  pending : List Nat
deriving Repr, DecidableEq

/-- Body of `CullingWidget._restore_cancelled_save_task`
(`src/main.py:2966`), critical section under `photo_obj.lock`: when the
photo still carries the cancelled task's snapshot version and is marked
saving, clear `is_saving` and force `is_dirty` so a later flush
re-dispatches the edit. -/
def restorePhoto (p : Photo) (v : Nat) : Photo :=
  if p.saving_version = v ∧ p.is_saving then
    { p with is_saving := false, is_dirty := true, saving_version := v }
  else p

/-- Apply `restorePhoto` to the catalog photo at index `i` (the Python
code holds the `Photo` object itself in `args[2]`; the embedding
addresses it by index). -/
def restoreAt : List Photo → Nat → Nat → List Photo
  | [], _, _ => []
  | p :: ps, 0, v => restorePhoto p v :: ps
  | p :: ps, i + 1, v => p :: restoreAt ps i v

/-- The keep decision of the `_flush_queue` drain loop: a popped task is
re-inserted when its key is in the preserve set (`keep_for_plan`) or when
it is a metadata save task and `preserve_metadata` is set. -/
def keepTask (preserve_metadata : Bool) (preserve_keys : Option (List Nat))
    (t : FlushTask) : Prop :=
  (∃ k, t.key = some k ∧ ∃ s, preserve_keys = some s ∧ k ∈ s) ∨
  (preserve_metadata = true ∧ t.save.isSome)

instance (pm : Bool) (pk : Option (List Nat)) (t : FlushTask) :
    Decidable (keepTask pm pk t) := by
  unfold keepTask
  cases h : t.key <;> cases h2 : pk <;> simp <;> infer_instance

/-- Photo effect of popping one task in the `_flush_queue` loop: a kept
task leaves the catalog untouched; a removed save task runs
`_restore_cancelled_save_task` on its photo. -/
def stepPhotos (pm : Bool) (pk : Option (List Nat)) (photos : List Photo)
    (t : FlushTask) : List Photo :=
  if keepTask pm pk t then photos
  else match t.save with
    | some (i, v) => restoreAt photos i v
    | none => photos

/-- Pending-set effect of popping one task: a removed task with a key has
that key discarded from `_pending_tasks` (set discard removes every
occurrence); kept tasks leave it untouched. -/
def stepPending (pm : Bool) (pk : Option (List Nat)) (pending : List Nat)
    (t : FlushTask) : List Nat :=
  if keepTask pm pk t then pending
  else match t.key with
    | some k => pending.filter (fun j => j ≠ k)
    | none => pending

/-- Preserved-list effect of popping one task: kept tasks are appended to
the `preserved` list that is re-inserted into the queue afterwards. -/
def stepPreserved (pm : Bool) (pk : Option (List Nat)) (preserved : List FlushTask)
    (t : FlushTask) : List FlushTask :=
  if keepTask pm pk t then preserved ++ [t] else preserved

/-- `CullingWidget._flush_queue` (`src/main.py:2983`): drain the queue,
re-inserting kept tasks in pop order; removed save tasks restore their
photo; removed keyed tasks are discarded from `_pending_tasks`; and when
no preserve set was given, the whole pending set is cleared at the end. -/
def flush_queue (pm : Bool) (pk : Option (List Nat)) (st : FlushState) : FlushState :=
  let photos := st.queue.foldl (stepPhotos pm pk) st.photos
  let preserved := st.queue.foldl (stepPreserved pm pk) []
  let pending := st.queue.foldl (stepPending pm pk) st.pending
  { photos := photos
    queue := preserved
    pending := match pk with | none => [] | some _ => pending }

/-! ### Tiered PIL cache with byte budget (`src/main.py:3156`–`3240`)

Each `OrderedDict` tier is modelled as an association list whose front is
the least-recently-used end (`popitem(last=False)` pops the front) and
whose back is the most-recently-used end (assignment appends).  A cached
image is represented by its `_estimate_pil_bytes` value, the only
attribute of it the cache bookkeeping reads, which also stands in for the
`_cache_item_sizes[(kind, key)]` entry recorded at insertion. -/

/-- One cache tier: association list of key and estimated byte size,
front = least recently used. -/
abbrev Tier := List (String × Nat)

/-- Sum of the tracked sizes of a tier's entries. -/
def tierBytes (c : Tier) : Nat := (c.map (·.2)).sum

/-- `OrderedDict.get(key)`: plain lookup, the order of entries is not
changed (the Python getters `_get_pil_full_cached` / `_get_pil_half_cached`
call `.get`, never `move_to_end`). -/
def odGet (c : Tier) (k : String) : Option Nat :=
  (c.find? (fun e => e.1 == k)).map (·.2)

/-- `OrderedDict.pop(key, None)`: remove the entry for `k` (keys are
unique in a dict, so removing the first match) and return its value. -/
def odPop : Tier → String → Option Nat × Tier
  | [], _ => (none, [])
  | e :: rest, k =>
    if e.1 = k then (some e.2, rest)
    else
      let (v, r) := odPop rest k
      (v, e :: r)

/-- The shared state of `CullingWidget`'s PIL caches: both tiers, the
byte accountant `_cache_estimated_bytes`, and the mutable item caps
`cache_full_limit` / `cache_half_limit`.  Every operation below models
one critical section under `cache_lock`. -/
structure CacheState where
  full : Tier
  half : Tier
  estimated_bytes : Nat
  full_limit : Nat
  half_limit : Nat
deriving Repr, DecidableEq

/-- The `while len(cache) > limit` loop of `_enforce_cache_limits_locked`
(`src/main.py:3161`): pop least-recently-used entries from the front,
subtracting each tracked size from the byte accountant (`max(0, ·)` is
Nat subtraction). -/
def evictOverLimit (limit : Nat) : Tier → Nat → Tier × Nat
  | [], bytes => ([], bytes)
  | e :: rest, bytes =>
    if rest.length + 1 > limit then evictOverLimit limit rest (bytes - e.2)
    else (e :: rest, bytes)

/-- The full-tier loop of `_enforce_memory_budget_locked`
(`src/main.py:3187`): while the tracked bytes exceed the budget target
and the tier is non-empty, pop the oldest entry, subtract its size, and
shrink the tier's item cap to `max(floor, min(cap, new length))`. -/
def evictBudget (target floor : Nat) : Tier → Nat → Nat → Tier × Nat × Nat
  | [], bytes, lim => ([], bytes, lim)
  | e :: rest, bytes, lim =>
    if bytes > target then
      evictBudget target floor rest (bytes - e.2) (max floor (min lim rest.length))
    else (e :: rest, bytes, lim)

/-- `_enforce_memory_budget_locked` (`src/main.py:3171`): when `psutil`
is unavailable or reports no usable numbers the function returns without
evicting (`target = none`); otherwise the sampled budget target is
enforced by draining the full tier oldest-first, then the half tier,
shrinking each tier's cap as it goes (floors 8 and 16). -/
def enforce_memory_budget (target : Option Nat) (st : CacheState) : CacheState :=
  match target with
  | none => st
  | some t =>
    let evF := evictBudget t 8 st.full st.estimated_bytes st.full_limit
    let evH := evictBudget t 16 st.half evF.2.1 st.half_limit
    { full := evF.1, half := evH.1, estimated_bytes := evH.2.1
      full_limit := evF.2.2, half_limit := evH.2.2 }

/-- `_enforce_cache_limits_locked` for the full tier (`src/main.py:3161`):
trim the full tier to its item cap, then enforce the byte budget. -/
def enforce_cache_limits_full (target : Option Nat) (st : CacheState) : CacheState :=
  let ev := evictOverLimit st.full_limit st.full st.estimated_bytes
  enforce_memory_budget target { st with full := ev.1, estimated_bytes := ev.2 }

/-- `_enforce_cache_limits_locked` for the half tier. -/
def enforce_cache_limits_half (target : Option Nat) (st : CacheState) : CacheState :=
  let ev := evictOverLimit st.half_limit st.half st.estimated_bytes
  enforce_memory_budget target { st with half := ev.1, estimated_bytes := ev.2 }

/-- `CullingWidget._get_pil_full_cached` (`src/main.py:3205`): a plain
`.get` under the cache lock; the returned pair makes the (absence of a)
state change explicit. -/
def get_pil_full_cached (st : CacheState) (path : String) : Option Nat × CacheState :=
  (odGet st.full path, st)

/-- `CullingWidget._get_pil_half_cached` (`src/main.py:3207`). -/
def get_pil_half_cached (st : CacheState) (path : String) : Option Nat × CacheState :=
  (odGet st.half path, st)

/-- `CullingWidget._put_pil_full` (`src/main.py:3209`): pop any previous
entry for the key (subtracting its tracked size), append the new entry at
the most-recently-used end, add its size, then enforce the item cap and
the byte budget.  `size` is the `_estimate_pil_bytes` of the inserted
image; `target` is the budget sampled from `psutil` (or `none`). -/
def put_pil_full (target : Option Nat) (st : CacheState) (path : String) (size : Nat) :
    CacheState :=
  let popped := odPop st.full path
  let bytes1 := match popped.1 with
    | some psz => st.estimated_bytes - psz
    | none => st.estimated_bytes
  enforce_cache_limits_full target
    { st with full := popped.2 ++ [(path, size)], estimated_bytes := bytes1 + size }

/-- `CullingWidget._put_pil_half` (`src/main.py:3226`). -/
def put_pil_half (target : Option Nat) (st : CacheState) (path : String) (size : Nat) :
    CacheState :=
  let popped := odPop st.half path
  let bytes1 := match popped.1 with
    | some psz => st.estimated_bytes - psz
    | none => st.estimated_bytes
  enforce_cache_limits_half target
    { st with half := popped.2 ++ [(path, size)], estimated_bytes := bytes1 + size }

/-- Byte-accountant soundness: the tracked total is exactly the sum of
the tracked sizes of the live entries of both tiers. -/
def CacheWF (st : CacheState) : Prop :=
  st.estimated_bytes = tierBytes st.full + tierBytes st.half

/-! ### XMP sidecar backend (`read_xmp_sidecar` / `write_xmp_sidecar`)

The module-level backend functions (`src/main.py:521` and `:588`) are
embedded as pure functions over an explicit environment: the resolved
`EXIFTOOL_PATH` (an `Option`, `none` when the executable could not be
found) and oracles for the filesystem and `subprocess.run` outcomes that
the code branches on.  Python dict values are modelled by `PyVal`. -/

/-- A dynamically-typed Python value as it occurs in the metadata
payload dicts. -/
inductive PyVal where
  | pyNone
  | pyInt (n : Int)
  | pyStr (s : String)
  | pyBool (b : Bool)
  | pyOther
deriving Repr, DecidableEq

/-- Python truthiness of a payload value. -/
def pyTruthy : PyVal → Bool
  | .pyNone => false
  | .pyInt n => n != 0
  | .pyStr s => !s.isEmpty
  | .pyBool b => b
  | .pyOther => true

/-- `str(v)` for a payload value. -/
def pyStrOf : PyVal → String
  | .pyNone => "None"
  | .pyInt n => toString n
  | .pyStr s => s
  | .pyBool b => if b then "True" else "False"
  | .pyOther => "<object>"

/-- `int(str(v))`, the conversion of the **read** path
(`read_xmp_sidecar` converts via `int(str(rating_val))`): succeeds on
integers and on strings that parse as an integer; raises (here: `none`)
otherwise — in particular on booleans, whose `str` is
`"True"`/`"False"`, and on `pyOther`. -/
def pyIntOfStr : PyVal → Option Int
  | .pyInt n => some n
  | .pyStr s => s.toInt?
  | _ => none

/-- `int(v)`, the conversion of the **write** path
(`write_xmp_sidecar` converts via `int(rating_val)`,
`src/main.py:611`): integers pass through, booleans convert
(`int(True) = 1`, `int(False) = 0`), strings parse; anything else
raises (here: `none`). -/
def pyIntOf : PyVal → Option Int
  | .pyInt n => some n
  | .pyBool b => some (if b then 1 else 0)
  | .pyStr s => s.toInt?
  | _ => none

/-- The check `v in (None, '')` used by `read_xmp_sidecar` to skip
absent or empty exiftool outputs. -/
def pyNoneOrEmpty (v : PyVal) : Bool :=
  v == .pyNone || v == .pyStr ""

/-- The payload dict handed to `write_xmp_sidecar`: one optional entry
per recognised key, `none` modelling an absent key.  (A key that is
present with value `None` is `some .pyNone`: `data.get(key)` makes the
two cases behave identically in the code.) -/
structure WritePayload where
  rating : Option PyVal
  color_label : Option PyVal
  selected : Option PyVal
deriving Repr, DecidableEq

/-- The tag-argument construction of `write_xmp_sidecar`
(`src/main.py:607`–`630`): everything appended to `cmd` after the four
fixed exiftool options.  A `rating` value that is `None` or fails
`int(·)` contributes nothing (booleans convert, so they do contribute);
a present `color_label` key always contributes (set or clear); a
non-`None` `selected` contributes an urgency flag. -/
def xmp_tag_args (data : WritePayload) : List String :=
  (match data.rating with
    | none => []
    | some v =>
      if v = .pyNone then []
      else match pyIntOf v with
        | none => []
        | some n => if n ≤ 0 then ["-XMP:Rating="] else [s!"-XMP:Rating={n}"]) ++
  (match data.color_label with
    | none => []
    | some v =>
      if pyTruthy v then [s!"-XMP:Label={pyStrOf v}"] else ["-XMP:Label="]) ++
  (match data.selected with
    | none => []
    | some v =>
      if v = .pyNone then []
      else if pyTruthy v then ["-XMP-photoshop:Urgency=1"]
      else ["-XMP-photoshop:Urgency=0"])

/-- Environment oracle for one `write_xmp_sidecar` call: whether
`_ensure_xmp_file_exists` raises, whether `subprocess.run` raises, and
the exiftool exit code when it runs. -/
structure WriteEnv where
  prepare_raises : Bool
  run_raises : Bool
  returncode : Int
deriving Repr, DecidableEq

/-- `write_xmp_sidecar(path, data)` (`src/main.py:588`): result flag and
whether exiftool was invoked.  With no resolved `EXIFTOOL_PATH` the call
returns `False` immediately; a failing sidecar preparation returns
`False`; an empty tag-argument list (`len(cmd) == 4`) returns `True`
without running exiftool; otherwise the result is the success of the
exiftool invocation. -/
def write_xmp_sidecar (exiftool : Option String) (env : WriteEnv)
    (data : WritePayload) : Bool × Bool :=
  match exiftool with
  | none => (false, false)
  | some _ =>
    if env.prepare_raises then (false, false)
    else if xmp_tag_args data = [] then (true, false)
    else if env.run_raises then (false, true)
    else if env.returncode ≠ 0 then (false, true)
    else (true, true)

/-- Environment oracle for one `read_xmp_sidecar` call: the filesystem
checks, the `subprocess.run` outcome, JSON parsing, and the first parsed
entry's effective field values (each the collapsed `entry.get(...) or
entry.get(...)` chain of the code, `pyNone` when every alternative is
absent). -/
structure ReadEnv where
  stat_raises : Bool
  file_exists : Bool
  size_zero : Bool
  run_raises : Bool
  returncode : Int
  stdout_blank : Bool
  parse_raises : Bool
  payload_nonempty_list : Bool
  entry_rating : PyVal
  entry_label : PyVal
  entry_urgency : PyVal
deriving Repr, DecidableEq

/-- The metadata map returned by `read_xmp_sidecar`: one optional entry
per key the function may populate; all-`none` is the empty dict. -/
structure ReadResult where
  rating : Option Int
  color_label : Option String
  selected : Option Bool
deriving Repr, DecidableEq

/-- The empty metadata map `{}`. -/
def emptyRead : ReadResult := ⟨none, none, none⟩

/-- `read_xmp_sidecar(path)` (`src/main.py:521`): with no resolved
`EXIFTOOL_PATH` the call returns `{}` immediately; every failure branch
(missing or empty sidecar, stat error, subprocess error, non-zero exit,
blank stdout, JSON error, non-list or empty payload) also returns `{}`;
otherwise the first entry's values are filtered and converted exactly as
in the code. -/
def read_xmp_sidecar (exiftool : Option String) (env : ReadEnv) : ReadResult :=
  match exiftool with
  | none => emptyRead
  | some _ =>
    if env.stat_raises then emptyRead
    else if ¬env.file_exists ∨ env.size_zero then emptyRead
    else if env.run_raises then emptyRead
    else if env.returncode ≠ 0 ∨ env.stdout_blank then emptyRead
    else if env.parse_raises then emptyRead
    else if ¬env.payload_nonempty_list then emptyRead
    else
      { rating :=
          if pyNoneOrEmpty env.entry_rating then none
          else pyIntOfStr env.entry_rating
        color_label :=
          if pyNoneOrEmpty env.entry_label then none
          else some (pyStrOf env.entry_label)
        selected :=
          if pyNoneOrEmpty env.entry_urgency then none
          else match pyIntOfStr env.entry_urgency with
            | some u => some (u = 1 || u > 0)
            | none => none }

/-! ## Theorems settling the claims -/

/-- C1: Save-completion reconciliation.  When an asynchronous sidecar
write dispatched with snapshot version `v` completes under the photo's
lock: a stale completion (`saving_version ≠ v`) leaves the state
unchanged and emits nothing; otherwise `is_saving` is cleared, and (a)
when a newer edit arrived mid-write (`version > v`) `is_dirty` is forced
true — in particular on success the postcondition is `dirty = true`,
`saving = false`; (b) on success with `version = v` dirty is left as it
was (so a clean dispatch stays `dirty = false`); (c) on failure
`is_dirty` is forced true so the snapshot is retried on the next flush
cycle. -/
theorem save_completion_reconciliation (p : Photo) (success : Bool) (v : Nat) :
    (p.saving_version ≠ v → write_task_with_cleanup p success v = (p, none)) ∧
    (p.saving_version = v →
      (write_task_with_cleanup p success v).1.is_saving = false ∧
      (p.version > v → (write_task_with_cleanup p success v).1.is_dirty = true) ∧
      (success = true → (write_task_with_cleanup p success v).1.is_dirty = p.is_dirty ∨
        (write_task_with_cleanup p success v).1.is_dirty = true) ∧
      (success = true → p.version ≤ v →
        (write_task_with_cleanup p success v).1.is_dirty = p.is_dirty) ∧
      (success = false → (write_task_with_cleanup p success v).1.is_dirty = true)) := by
  constructor
  · intro h
    simp [write_task_with_cleanup, h]
  · intro h
    by_cases hv : p.version > v
    · cases success <;> simp [write_task_with_cleanup, h, hv]
    · cases success <;> simp [write_task_with_cleanup, h, hv]

/-- Witness for C1 at the spec's race scenario: `version = 2`,
`saving_version = 1`, successful write with snapshot version 1 ends with
`dirty = true`, `saving = false`. -/
theorem save_completion_reconciliation_witness :
    (write_task_with_cleanup ⟨5, "", false, true, true, true, 2, 1⟩ true 1).1.is_dirty = true ∧
    (write_task_with_cleanup ⟨5, "", false, true, true, true, 2, 1⟩ true 1).1.is_saving = false := by
  have h := save_completion_reconciliation ⟨5, "", false, true, true, true, 2, 1⟩ true 1
  exact ⟨(h.2 rfl).2.1 (by decide), (h.2 rfl).1⟩

/-- C7: External-read frame property.  When a completed background XMP
sidecar read is applied to a photo whose `is_dirty` or `is_saving` flag
is set, the handler leaves every field unchanged except `xmp_loaded`,
which is set: the photo is never overwritten by an external metadata
read while dirty or saving. -/
theorem external_read_frame (p : Photo) (d : XmpUpdate)
    (h : p.is_dirty = true ∨ p.is_saving = true) :
    on_xmp_ready p d = { p with xmp_loaded := true } := by
  rcases h with h | h <;> simp [on_xmp_ready, h]

/-- Witness for C7: a dirty photo keeps its rating, label and pick flag
across a read completion delivering different values. -/
theorem external_read_frame_witness :
    on_xmp_ready ⟨4, "Red", true, false, true, false, 3, 0⟩
        ⟨some 1, some "Blue", some false⟩ =
      ⟨4, "Red", true, true, true, false, 3, 0⟩ := by
  exact external_read_frame ⟨4, "Red", true, false, true, false, 3, 0⟩
    ⟨some 1, some "Blue", some false⟩ (Or.inl rfl)

/-- Per-photo core of C8: a photo that has just been through the dispatch
step is skipped by a second dispatch step. -/
theorem flush_photo_flushed (p : Photo) : (flush_photo (flush_photo p).1).2 = none := by
  cases hd : p.is_dirty <;> cases hs : p.is_saving <;> simp [flush_photo, hd, hs]

/-- C8: Flush idempotence.  With no intervening mutations or completions,
a second `save_all_dirty_files` over the catalog left by a first one
dispatches zero XMP write tasks: every photo is either no longer dirty or
already saving. -/
theorem flush_idempotent (ps : List Photo) :
    (save_all_dirty_files (save_all_dirty_files ps).1).2 = [] := by
  induction ps with
  | nil => rfl
  | cons p ps ih =>
    simp [save_all_dirty_files, flush_photo_flushed, ih]

/-- A key already pending keeps its pending mark and its queue count
across any burst of `_enqueue` calls. -/
theorem enqueueAll_of_pending {K : Type} [DecidableEq K] (ks : List K) :
    ∀ (st : QueueState K) (k : K), k ∈ st.pending →
      k ∈ (enqueueAll st ks).pending ∧
      (enqueueAll st ks).queue.count k = st.queue.count k := by
  induction ks with
  | nil => exact fun st k h => ⟨h, rfl⟩
  | cons j ks ih =>
    intro st k h
    simp only [enqueueAll, List.foldl_cons]
    by_cases hj : j ∈ st.pending
    · rw [show enqueueKey st j = st from by simp [enqueueKey, hj]]
      exact ih st k h
    · rw [show enqueueKey st j = ⟨j :: st.pending, st.queue ++ [j], st.inflight⟩ from by
        simp [enqueueKey, hj]]
      have hne : j ≠ k := fun hjk => hj (hjk ▸ h)
      have hrec := ih ⟨j :: st.pending, st.queue ++ [j], st.inflight⟩ k
        (List.mem_cons_of_mem j h)
      simp only [enqueueAll] at hrec
      refine ⟨hrec.1, ?_⟩
      rw [hrec.2]
      simp [List.count_append, List.count_cons_of_ne (fun hkj => hne hkj.symm)]

/-- Coalescing burst: from a state where key `k` is not pending, a burst
of `_enqueue` calls containing `k` pushes exactly one task for `k`. -/
theorem enqueueAll_count_one {K : Type} [DecidableEq K] (ks : List K) :
    ∀ (st : QueueState K) (k : K), k ∉ st.pending → st.queue.count k = 0 → k ∈ ks →
      (enqueueAll st ks).queue.count k = 1 := by
  induction ks with
  | nil => intro st k _ _ hmem; cases hmem
  | cons j ks ih =>
    intro st k hpend hq hmem
    simp only [enqueueAll, List.foldl_cons]
    by_cases hjk : j = k
    · subst hjk
      rw [show enqueueKey st j = ⟨j :: st.pending, st.queue ++ [j], st.inflight⟩ from by
        simp [enqueueKey, hpend]]
      have hrec := enqueueAll_of_pending ks ⟨j :: st.pending, st.queue ++ [j], st.inflight⟩ j
        (List.mem_cons_self j st.pending)
      simp only [enqueueAll] at hrec
      rw [hrec.2]
      simp [List.count_append, hq]
    · have hmem' : k ∈ ks := by
        rcases List.mem_cons.mp hmem with h | h
        · exact absurd h.symm hjk
        · exact h
      by_cases hj : j ∈ st.pending
      · rw [show enqueueKey st j = st from by simp [enqueueKey, hj]]
        exact ih st k hpend hq hmem'
      · rw [show enqueueKey st j = ⟨j :: st.pending, st.queue ++ [j], st.inflight⟩ from by
          simp [enqueueKey, hj]]
        refine ih _ k ?_ ?_ hmem'
        · intro hk
          rcases List.mem_cons.mp hk with h | h
          · exact hjk h.symm
          · exact hpend h
        · simp [List.count_append, hq,
            List.count_cons_of_ne (fun hkj => hjk hkj.symm)]

/-- C4: Task coalescing.  (1) Across all repeated `_enqueue` calls with a
given key issued before the first task with that key is dequeued and its
wrapper clears the key from the pending set, exactly one task for that
key is pushed onto the queue; (2) the coalescing invariant — at most one
pending/in-flight task per key, and every queued or in-flight key is
marked pending — is preserved by every queue event (enqueue, worker
dequeue, wrapper completion). -/
theorem task_coalescing {K : Type} [DecidableEq K] (st : QueueState K)
    (ks : List K) (k : K) (op : QueueOp K) :
    (k ∉ st.pending → st.queue.count k = 0 → k ∈ ks →
      (enqueueAll st ks).queue.count k = 1) ∧
    (CoalesceInv st → CoalesceInv (applyOp st op)) := by
  constructor
  · exact fun h1 h2 h3 => enqueueAll_count_one ks st k h1 h2 h3
  · rintro ⟨hcount, hpend⟩
    cases op with
    | enq j =>
      by_cases hj : j ∈ st.pending
      · rw [show applyOp st (.enq j) = st from by simp [applyOp, enqueueKey, hj]]
        exact ⟨hcount, hpend⟩
      · rw [show applyOp st (.enq j) = ⟨j :: st.pending, st.queue ++ [j], st.inflight⟩ from by
          simp [applyOp, enqueueKey, hj]]
        have hjq : j ∉ st.queue ++ st.inflight := fun h => hj (hpend j h)
        constructor
        · intro a
          by_cases haj : a = j
          · subst haj
            have h0 : (st.queue ++ st.inflight).count a = 0 := List.count_eq_zero.mpr hjq
            simp only [List.count_append] at h0 ⊢
            simp only [List.count_singleton_self]
            omega
          · have h1 := hcount a
            simp only [List.count_append] at h1 ⊢
            have hz : List.count a [j] = 0 :=
              List.count_eq_zero.mpr (by simp [haj])
            omega
        · intro a ha
          simp only [List.mem_append, List.mem_singleton] at ha
          rcases ha with (ha | rfl) | ha
          · exact List.mem_cons_of_mem j (hpend a (List.mem_append.mpr (Or.inl ha)))
          · exact List.mem_cons_self _ _
          · exact List.mem_cons_of_mem j (hpend a (List.mem_append.mpr (Or.inr ha)))
    | start =>
      cases hq : st.queue with
      | nil =>
        rw [show applyOp st .start = st from by simp [applyOp, startNext, hq]]
        exact ⟨hcount, hpend⟩
      | cons j rest =>
        rw [show applyOp st .start = ⟨st.pending, rest, st.inflight ++ [j]⟩ from by
          simp [applyOp, startNext, hq]]
        constructor
        · intro a
          have h1 := hcount a
          rw [hq] at h1
          by_cases haj : a = j
          · subst haj
            simp only [List.count_append, List.count_cons_self,
              List.count_singleton_self, List.count_nil] at h1 ⊢
            omega
          · have hz : List.count a [j] = 0 := List.count_eq_zero.mpr (by simp [haj])
            simp only [List.count_append, List.count_cons_of_ne haj,
              List.count_nil] at h1 ⊢
            omega
        · intro a ha
          refine hpend a ?_
          rw [hq]
          simp only [List.mem_append, List.mem_cons, List.mem_singleton] at ha ⊢
          tauto
    | fin j =>
      by_cases hj : j ∈ st.inflight
      · rw [show applyOp st (.fin j) =
            ⟨st.pending.filter (fun x => x ≠ j), st.queue, st.inflight.erase j⟩ from by
          simp [applyOp, finishTask, hj]]
        constructor
        · intro a
          have h1 := hcount a
          simp only [List.count_append] at h1 ⊢
          by_cases haj : a = j
          · subst haj
            simp only [List.count_erase_self]
            omega
          · rw [List.count_erase_of_ne haj]
            omega
        · intro a ha
          by_cases haj : a = j
          · subst haj
            exfalso
            have h2 := hcount a
            have hmemcnt : 1 ≤ (st.queue ++ st.inflight.erase a).count a :=
              List.one_le_count_iff.mpr ha
            have hji : 1 ≤ st.inflight.count a := List.one_le_count_iff.mpr hj
            simp only [List.count_append, List.count_erase_self] at h2 hmemcnt
            omega
          · have ha' : a ∈ st.queue ++ st.inflight := by
              rcases List.mem_append.mp ha with h | h
              · exact List.mem_append.mpr (Or.inl h)
              · exact List.mem_append.mpr (Or.inr (List.mem_of_mem_erase h))
            refine List.mem_filter.mpr ⟨hpend a ha', ?_⟩
            simp [haj]
      · rw [show applyOp st (.fin j) = st from by simp [applyOp, finishTask, hj]]
        exact ⟨hcount, hpend⟩

/-- Witness for C4: a burst `[5, 5, 7, 5]` on the empty queue pushes
exactly one task for key 5, and the coalescing invariant is preserved by
enqueueing key 5 into the empty state. -/
theorem task_coalescing_witness :
    (enqueueAll (⟨[], [], []⟩ : QueueState Nat) [5, 5, 7, 5]).queue.count 5 = 1 ∧
    CoalesceInv (applyOp (⟨[], [], []⟩ : QueueState Nat) (.enq 5)) := by
  have h := task_coalescing (⟨[], [], []⟩ : QueueState Nat) [5, 5, 7, 5] 5 (.enq 5)
  refine ⟨h.1 (by simp) (by simp) (by simp), h.2 ⟨?_, ?_⟩⟩
  · intro k
    simp
  · intro k hk
    simp at hk

/-- Index `i` holds a photo with an in-flight save of snapshot version
`v`. -/
def savingAt (photos : List Photo) (i v : Nat) : Prop :=
  ∃ p, photos[i]? = some p ∧ p.is_saving = true ∧ p.saving_version = v

/-- Index `i` holds a photo restored for retry: not saving and dirty. -/
def restoredAt (photos : List Photo) (i : Nat) : Prop :=
  ∃ q, photos[i]? = some q ∧ q.is_saving = false ∧ q.is_dirty = true

/-- `restoreAt` pointwise: the entry at the touched index is passed
through `restorePhoto`; all other entries are untouched. -/
theorem restoreAt_get (photos : List Photo) (j w i : Nat) :
    (restoreAt photos j w)[i]? =
      if j = i then (photos[i]?).map (restorePhoto · w) else photos[i]? := by
  induction photos generalizing i j with
  | nil => simp [restoreAt]
  | cons p ps ih =>
    cases j with
    | zero =>
      cases i with
      | zero => simp [restoreAt]
      | succ i => simp [restoreAt]
    | succ j =>
      cases i with
      | zero => simp [restoreAt]
      | succ i =>
        simp only [restoreAt, List.getElem?_cons_succ, ih, Nat.succ_eq_add_one]
        by_cases h : j = i <;> simp [h]

/-- A restored photo stays restored across any later drain-loop step:
`restorePhoto` only acts on photos still marked saving. -/
theorem stepPhotos_restoredAt (pm : Bool) (pk : Option (List Nat))
    (photos : List Photo) (t : FlushTask) (i : Nat)
    (h : restoredAt photos i) : restoredAt (stepPhotos pm pk photos t) i := by
  obtain ⟨q, hq, hs, hd⟩ := h
  unfold stepPhotos
  split
  · exact ⟨q, hq, hs, hd⟩
  · match t.save with
    | some (j, w) =>
      simp only
      rw [restoredAt, restoreAt_get]
      by_cases hji : j = i
      · refine ⟨restorePhoto q w, ?_, ?_, ?_⟩
        · simp [hji, hq]
        · simp [restorePhoto, hs]
        · simp [restorePhoto, hs, hd]
      · exact ⟨q, by simp [hji, hq], hs, hd⟩
    | none => exact ⟨q, hq, hs, hd⟩

/-- A photo with an in-flight save either keeps it or ends up restored
across one drain-loop step. -/
theorem stepPhotos_savingAt (pm : Bool) (pk : Option (List Nat))
    (photos : List Photo) (t : FlushTask) (i v : Nat)
    (h : savingAt photos i v) :
    savingAt (stepPhotos pm pk photos t) i v ∨
    restoredAt (stepPhotos pm pk photos t) i := by
  obtain ⟨p, hp, hs, hv⟩ := h
  unfold stepPhotos
  split
  · exact Or.inl ⟨p, hp, hs, hv⟩
  · match t.save with
    | some (j, w) =>
      simp only
      by_cases hji : j = i
      · by_cases hwv : p.saving_version = w
        · refine Or.inr ⟨restorePhoto p w, ?_, ?_, ?_⟩
          · rw [restoreAt_get]
            simp [hji, hp]
          · simp [restorePhoto, hwv, hs]
          · simp [restorePhoto, hwv, hs]
        · have hvw : v ≠ w := fun h => hwv (hv.trans h)
          refine Or.inl ⟨restorePhoto p w, ?_, ?_, ?_⟩
          · rw [restoreAt_get]
            simp [hji, hp]
          · simp [restorePhoto, hwv, hs]
          · simp [restorePhoto, hwv, hs, hv, hvw]
      · exact Or.inl ⟨p, by rw [restoreAt_get]; simp [hji, hp], hs, hv⟩
    | none => exact Or.inl ⟨p, hp, hs, hv⟩

/-- Removing (not keeping) a save task whose snapshot version still
matches its photo's in-flight save restores that photo. -/
theorem stepPhotos_hit (pm : Bool) (pk : Option (List Nat))
    (photos : List Photo) (t : FlushTask) (i v : Nat)
    (h : savingAt photos i v) (hkeep : ¬keepTask pm pk t)
    (hsave : t.save = some (i, v)) :
    restoredAt (stepPhotos pm pk photos t) i := by
  obtain ⟨p, hp, hs, hv⟩ := h
  unfold stepPhotos
  rw [if_neg hkeep, hsave]
  simp only
  refine ⟨restorePhoto p v, ?_, ?_, ?_⟩
  · rw [restoreAt_get]
    simp [hp]
  · simp [restorePhoto, hv, hs]
  · simp [restorePhoto, hv, hs]

/-- Restoration survives the rest of the drain loop. -/
theorem foldl_restoredAt (pm : Bool) (pk : Option (List Nat)) (ts : List FlushTask) :
    ∀ photos i, restoredAt photos i →
      restoredAt (ts.foldl (stepPhotos pm pk) photos) i := by
  induction ts with
  | nil => exact fun photos i h => h
  | cons u ts ih =>
    intro photos i h
    exact ih _ i (stepPhotos_restoredAt pm pk photos u i h)

/-- Draining a queue that contains a removed save task matching a
photo's in-flight save restores that photo. -/
theorem foldl_hit (pm : Bool) (pk : Option (List Nat)) (ts : List FlushTask)
    (t : FlushTask) (i v : Nat) :
    ∀ photos, savingAt photos i v → t ∈ ts → t.save = some (i, v) →
      ¬keepTask pm pk t →
      restoredAt (ts.foldl (stepPhotos pm pk) photos) i := by
  induction ts with
  | nil => intro photos _ hmem; cases hmem
  | cons u ts ih =>
    intro photos hsav hmem hsave hkeep
    rcases List.mem_cons.mp hmem with rfl | hmem'
    · exact foldl_restoredAt pm pk ts _ i (stepPhotos_hit pm pk photos t i v hsav hkeep hsave)
    · rcases stepPhotos_savingAt pm pk photos u i v hsav with h | h
      · exact ih _ h hmem' hsave hkeep
      · exact foldl_restoredAt pm pk ts _ i h

/-- The preserved accumulator only grows during the drain loop. -/
theorem foldl_preserved_mono (pm : Bool) (pk : Option (List Nat)) (ts : List FlushTask)
    (t : FlushTask) :
    ∀ acc, t ∈ acc → t ∈ ts.foldl (stepPreserved pm pk) acc := by
  induction ts with
  | nil => exact fun acc h => h
  | cons u ts ih =>
    intro acc h
    refine ih _ ?_
    unfold stepPreserved
    split
    · exact List.mem_append.mpr (Or.inl h)
    · exact h

/-- Every kept task ends up in the preserved list. -/
theorem foldl_preserved_mem (pm : Bool) (pk : Option (List Nat)) (ts : List FlushTask)
    (t : FlushTask) :
    ∀ acc, t ∈ ts → keepTask pm pk t → t ∈ ts.foldl (stepPreserved pm pk) acc := by
  induction ts with
  | nil => intro acc h; cases h
  | cons u ts ih =>
    intro acc hmem hkeep
    rcases List.mem_cons.mp hmem with rfl | hmem'
    · refine foldl_preserved_mono pm pk ts t _ ?_
      unfold stepPreserved
      rw [if_pos hkeep]
      exact List.mem_append.mpr (Or.inr (List.mem_singleton.mpr rfl))
    · exact ih _ hmem' hkeep

/-- A key absent from the pending set stays absent during the drain
loop (steps only discard keys). -/
theorem foldl_pending_mono (pm : Bool) (pk : Option (List Nat)) (ts : List FlushTask)
    (k : Nat) :
    ∀ acc, k ∉ acc → k ∉ ts.foldl (stepPending pm pk) acc := by
  induction ts with
  | nil => exact fun acc h => h
  | cons u ts ih =>
    intro acc h
    refine ih _ ?_
    unfold stepPending
    split
    · exact h
    · match u.key with
      | some j =>
        intro hmem
        exact h (List.mem_filter.mp hmem).1
      | none => exact h

/-- The key of every removed task is discarded from the pending set. -/
theorem foldl_pending_removed (pm : Bool) (pk : Option (List Nat)) (ts : List FlushTask)
    (t : FlushTask) (k : Nat) :
    ∀ acc, t ∈ ts → ¬keepTask pm pk t → t.key = some k →
      k ∉ ts.foldl (stepPending pm pk) acc := by
  induction ts with
  | nil => intro acc h; cases h
  | cons u ts ih =>
    intro acc hmem hkeep hkey
    rcases List.mem_cons.mp hmem with rfl | hmem'
    · refine foldl_pending_mono pm pk ts k _ ?_
      unfold stepPending
      rw [if_neg hkeep, hkey]
      simp only
      intro hmem2
      have hfilter := (List.mem_filter.mp hmem2).2
      simp at hfilter
    · exact ih _ hmem' hkeep hkey

/-- C2: No edit silently lost on queue flush.  For any `_flush_queue`
call: (1) when a metadata save task is removed without being preserved
and its photo still carries the in-flight save with the task's snapshot
version, the photo ends up with `saving = false` and `dirty = true`, so
a later flush re-dispatches the edit; (2) every task whose key is in the
preserve set, and (with `preserve_metadata`, the default) every metadata
save task, is re-inserted into the queue; (3) every removed task's key
is cleared from the pending set. -/
theorem flush_no_silent_loss (pm : Bool) (pk : Option (List Nat)) (st : FlushState)
    (t : FlushTask) (i v : Nat) :
    (t ∈ st.queue → t.save = some (i, v) → ¬keepTask pm pk t →
      savingAt st.photos i v →
      restoredAt (flush_queue pm pk st).photos i) ∧
    (t ∈ st.queue → keepTask pm pk t → t ∈ (flush_queue pm pk st).queue) ∧
    (t ∈ st.queue → ¬keepTask pm pk t → ∀ k, t.key = some k →
      k ∉ (flush_queue pm pk st).pending) := by
  refine ⟨?_, ?_, ?_⟩
  · intro hmem hsave hkeep hsav
    exact foldl_hit pm pk st.queue t i v st.photos hsav hmem hsave hkeep
  · intro hmem hkeep
    exact foldl_preserved_mem pm pk st.queue t [] hmem hkeep
  · intro hmem hkeep k hkey
    unfold flush_queue
    cases pk with
    | none => simp
    | some s =>
      simp only
      exact foldl_pending_removed pm (some s) st.queue t k st.pending hmem hkeep hkey

/-- Witness for C2 on a concrete state: one unkeyed save task over a
saving photo, flushed with `preserve_metadata = false`, restores the
photo, and its (absent) key clause holds vacuously; a second keyed save
task in the preserve set is re-inserted. -/
theorem flush_no_silent_loss_witness :
    restoredAt (flush_queue false (some [9])
      ⟨[⟨0, "", false, false, false, true, 1, 1⟩],
       [⟨none, some (0, 1)⟩, ⟨some 9, none⟩], [4]⟩).photos 0 ∧
    (⟨some 9, none⟩ : FlushTask) ∈ (flush_queue false (some [9])
      ⟨[⟨0, "", false, false, false, true, 1, 1⟩],
       [⟨none, some (0, 1)⟩, ⟨some 9, none⟩], [4]⟩).queue := by
  have h := flush_no_silent_loss false (some [9])
    ⟨[⟨0, "", false, false, false, true, 1, 1⟩],
     [⟨none, some (0, 1)⟩, ⟨some 9, none⟩], [4]⟩
    ⟨none, some (0, 1)⟩ 0 1
  have h2 := flush_no_silent_loss false (some [9])
    ⟨[⟨0, "", false, false, false, true, 1, 1⟩],
     [⟨none, some (0, 1)⟩, ⟨some 9, none⟩], [4]⟩
    ⟨some 9, none⟩ 0 1
  refine ⟨h.1 (by simp) rfl ?_ ?_, h2.2.1 (by simp) ?_⟩
  · intro hk
    rcases hk with ⟨k, hk, _⟩ | ⟨hpm, _⟩
    · cases hk
    · simp at hpm
  · exact ⟨⟨0, "", false, false, false, true, 1, 1⟩, rfl, rfl, rfl⟩
  · exact Or.inl ⟨9, rfl, [9], rfl, by simp⟩

/-- Popping an absent key from an `OrderedDict` is a no-op. -/
theorem odPop_of_odGet_none (c : Tier) (k : String) (h : odGet c k = none) :
    odPop c k = (none, c) := by
  induction c with
  | nil => rfl
  | cons e rest ih =>
    by_cases hek : e.1 = k
    · exfalso
      simp [odGet, List.find?_cons, hek] at h
    · have hbek : (e.1 == k) = false := beq_eq_false_iff_ne.mpr hek
      simp only [odGet, List.find?_cons, hbek] at h
      simp [odPop, hek, ih h]

/-- A tier within its item cap is untouched by cap enforcement. -/
theorem evictOverLimit_of_le (limit : Nat) (c : Tier) (b : Nat)
    (h : c.length ≤ limit) : evictOverLimit limit c b = (c, b) := by
  cases c with
  | nil => rfl
  | cons e rest =>
    unfold evictOverLimit
    rw [if_neg (by simp at h ⊢; omega)]

/-- A tier one over its item cap loses exactly its oldest (front)
entry. -/
theorem evictOverLimit_of_succ (limit : Nat) (c : Tier) (b : Nat)
    (h : c.length = limit + 1) : (evictOverLimit limit c b).1 = c.tail := by
  cases c with
  | nil => simp at h
  | cons e rest =>
    unfold evictOverLimit
    rw [if_pos (by simp at h ⊢; omega)]
    rw [evictOverLimit_of_le limit rest _ (by simp at h; omega)]
    rfl

/-- C5 counterexample, refuting "a `get` that hits moves the hit entry
to the most-recently-used position … getting the oldest entry and then
putting a new key evicts some entry other than the one just accessed":
in a full-resolution cache at its cap holding `a` (oldest) and `b`,
getting `a` hits but leaves the order unchanged, and putting `c` then
evicts `a` — exactly the entry just accessed. -/
theorem lru_get_counterexample :
    (get_pil_full_cached ⟨[("a", 1), ("b", 1)], [], 2, 2, 2⟩ "a").1 = some 1 ∧
    (get_pil_full_cached ⟨[("a", 1), ("b", 1)], [], 2, 2, 2⟩ "a").2 =
      ⟨[("a", 1), ("b", 1)], [], 2, 2, 2⟩ ∧
    (put_pil_full none
        (get_pil_full_cached ⟨[("a", 1), ("b", 1)], [], 2, 2, 2⟩ "a").2
        "c" 1).full = [("b", 1), ("c", 1)] := by
  refine ⟨rfl, rfl, ?_⟩
  decide

/-- C5 (amended): cache LRU discipline as implemented.  A `get` that
hits returns the entry but does **not** reorder the tier (the getters
use plain `OrderedDict.get`); a `put` inserts at the most-recently-used
end and, when the tier was at its item cap and the key is fresh, evicts
exactly the least-recently-used (front) entry — so getting the oldest
entry and then putting a new key evicts precisely the entry just
accessed. -/
theorem lru_discipline (st : CacheState) (k : String) (sz : Nat) :
    (get_pil_full_cached st k).2 = st ∧
    (get_pil_half_cached st k).2 = st ∧
    (odGet st.full k = none → st.full.length = st.full_limit →
      (put_pil_full none st k sz).full = (st.full ++ [(k, sz)]).tail) := by
  refine ⟨rfl, rfl, ?_⟩
  intro hget hlen
  simp only [put_pil_full, odPop_of_odGet_none st.full k hget,
    enforce_cache_limits_full, enforce_memory_budget]
  rw [evictOverLimit_of_succ]
  simp [hlen]

/-- Witness for C5 (amended) at the counterexample state: putting `c`
after getting `a` evicts the front entry `a`. -/
theorem lru_discipline_witness :
    (put_pil_full none ⟨[("a", 1), ("b", 1)], [], 2, 2, 2⟩ "c" 1).full =
      [("b", 1), ("c", 1)] := by
  have h := (lru_discipline ⟨[("a", 1), ("b", 1)], [], 2, 2, 2⟩ "c" 1).2.2
    (by decide) (by decide)
  simpa using h

theorem tierBytes_nil : tierBytes [] = 0 := rfl

theorem tierBytes_cons (e : String × Nat) (c : Tier) :
    tierBytes (e :: c) = e.2 + tierBytes c := by
  simp [tierBytes]

theorem tierBytes_append (c1 c2 : Tier) :
    tierBytes (c1 ++ c2) = tierBytes c1 + tierBytes c2 := by
  simp [tierBytes]

/-- Popping a key that is absent returns the tier unchanged. -/
theorem odPop_none (c : Tier) (k : String) (h : (odPop c k).1 = none) :
    (odPop c k).2 = c := by
  induction c with
  | nil => rfl
  | cons e rest ih =>
    by_cases hek : e.1 = k
    · simp [odPop, hek] at h
    · simp only [odPop, if_neg hek] at h ⊢
      rw [ih h]

/-- Popping a present key accounts exactly for its tracked size. -/
theorem odPop_some (c : Tier) (k : String) (v : Nat)
    (h : (odPop c k).1 = some v) :
    tierBytes c = v + tierBytes (odPop c k).2 := by
  induction c with
  | nil => simp [odPop] at h
  | cons e rest ih =>
    by_cases hek : e.1 = k
    · simp only [odPop, if_pos hek] at h ⊢
      cases h
      rw [tierBytes_cons]
    · simp only [odPop, if_neg hek] at h ⊢
      rw [tierBytes_cons, tierBytes_cons, ih h]
      omega

/-- Cap enforcement keeps the byte accountant in sync with the tier. -/
theorem evictOverLimit_bytes (limit : Nat) :
    ∀ (c : Tier) (b r : Nat), b = tierBytes c + r →
      (evictOverLimit limit c b).2 = tierBytes (evictOverLimit limit c b).1 + r := by
  intro c
  induction c with
  | nil => intro b r h; simpa [evictOverLimit, tierBytes_nil] using h
  | cons e rest ih =>
    intro b r h
    rw [tierBytes_cons] at h
    unfold evictOverLimit
    by_cases hl : rest.length + 1 > limit
    · rw [if_pos hl]
      exact ih (b - e.2) r (by omega)
    · rw [if_neg hl]
      simpa [tierBytes_cons] using h

/-- A budget loop that is not triggered leaves everything unchanged. -/
theorem evictBudget_noop (t floor : Nat) (c : Tier) (b lim : Nat) (h : ¬b > t) :
    evictBudget t floor c b lim = (c, b, lim) := by
  cases c with
  | nil => rfl
  | cons e rest =>
    unfold evictBudget
    rw [if_neg h]

/-- The budget loop only shrinks the tier. -/
theorem evictBudget_len (t floor : Nat) :
    ∀ (c : Tier) (b lim : Nat),
      (evictBudget t floor c b lim).1.length ≤ c.length := by
  intro c
  induction c with
  | nil => intro b lim; simp [evictBudget]
  | cons e rest ih =>
    intro b lim
    unfold evictBudget
    by_cases hb : b > t
    · rw [if_pos hb]
      exact Nat.le_succ_of_le (ih _ _)
    · rw [if_neg hb]

/-- The budget loop stops at or under the target, or with the tier
drained empty. -/
theorem evictBudget_stop (t floor : Nat) :
    ∀ (c : Tier) (b lim : Nat),
      (evictBudget t floor c b lim).2.1 ≤ t ∨
      (evictBudget t floor c b lim).1 = [] := by
  intro c
  induction c with
  | nil => intro b lim; exact Or.inr rfl
  | cons e rest ih =>
    intro b lim
    unfold evictBudget
    by_cases hb : b > t
    · rw [if_pos hb]
      exact ih _ _
    · rw [if_neg hb]
      exact Or.inl (Nat.le_of_not_lt hb)

/-- Budget-loop soundness: the byte accountant stays in sync with the
drained tier (plus the other tier's bytes `r`), the loop stops only
under the target or with the tier empty, and the accountant never
grows. -/
theorem evictBudget_spec (t floor : Nat) :
    ∀ (c : Tier) (b lim r : Nat), b = tierBytes c + r →
      (evictBudget t floor c b lim).2.1 =
        tierBytes (evictBudget t floor c b lim).1 + r ∧
      ((evictBudget t floor c b lim).2.1 ≤ t ∨
        (evictBudget t floor c b lim).1 = []) ∧
      (evictBudget t floor c b lim).2.1 ≤ b := by
  intro c
  induction c with
  | nil =>
    intro b lim r h
    rw [tierBytes_nil] at h
    exact ⟨by simpa [evictBudget, tierBytes_nil] using h, Or.inr rfl, Nat.le_refl b⟩
  | cons e rest ih =>
    intro b lim r h
    rw [tierBytes_cons] at h
    unfold evictBudget
    by_cases hb : b > t
    · rw [if_pos hb]
      obtain ⟨h1, h2, h3⟩ := ih (b - e.2) (max floor (min lim rest.length)) r (by omega)
      exact ⟨h1, h2, by omega⟩
    · rw [if_neg hb]
      exact ⟨by simpa [tierBytes_cons] using h, Or.inl (Nat.le_of_not_lt hb), Nat.le_refl b⟩

/-- When the budget loop evicts at least once, the tier's cap ends as
its post-eviction length clamped between the floor and the old cap. -/
theorem evictBudget_lim (t floor : Nat) :
    ∀ (c : Tier) (b lim : Nat), b > t → c ≠ [] →
      (evictBudget t floor c b lim).2.2 =
        max floor (min lim (evictBudget t floor c b lim).1.length) := by
  intro c
  induction c with
  | nil => intro b lim _ hne; exact absurd rfl hne
  | cons e rest ih =>
    intro b lim hb _
    unfold evictBudget
    rw [if_pos hb]
    by_cases hb2 : b - e.2 > t
    · cases hrest : rest with
      | nil =>
        subst hrest
        simp [evictBudget]
      | cons f rest2 =>
        subst hrest
        rw [ih _ _ hb2 (by simp)]
        have hlen := evictBudget_len t floor (f :: rest2) (b - e.2)
          (max floor (min lim (f :: rest2).length))
        omega
    · rw [evictBudget_noop t floor rest _ _ hb2]

/-- Budget enforcement with a sampled target keeps the accountant sound
and lands at or under the target. -/
theorem enforce_budget_sound (t : Nat) (st : CacheState) (h : CacheWF st) :
    (enforce_memory_budget (some t) st).estimated_bytes ≤ t ∧
    CacheWF (enforce_memory_budget (some t) st) := by
  unfold CacheWF at h
  obtain ⟨hf1, hf2, hf3⟩ := evictBudget_spec t 8 st.full st.estimated_bytes st.full_limit
    (tierBytes st.half) h
  obtain ⟨hh1, hh2, hh3⟩ := evictBudget_spec t 16 st.half
    (evictBudget t 8 st.full st.estimated_bytes st.full_limit).2.1 st.half_limit
    (tierBytes (evictBudget t 8 st.full st.estimated_bytes st.full_limit).1)
    (by omega)
  constructor
  · show (evictBudget t 16 st.half _ st.half_limit).2.1 ≤ t
    rcases hh2 with hh2 | hh2
    · exact hh2
    · rcases hf2 with hf2 | hf2
      · omega
      · rw [hf2] at hh1
        rw [hh2] at hh1
        simp [tierBytes_nil] at hh1
        omega
  · show (evictBudget t 16 st.half _ st.half_limit).2.1 =
      tierBytes (evictBudget t 8 st.full st.estimated_bytes st.full_limit).1 +
      tierBytes (evictBudget t 16 st.half _ st.half_limit).1
    omega

/-- C6 counterexample, refuting "each tier's effective capacity is
shrunk to its post-eviction count": a full tier of five 100-byte entries
with cap 10, budget target 250, receives a sixth entry; the budget loop
evicts down to two entries, but the cap is clamped at the floor 8, not
shrunk to 2. -/
theorem budget_capacity_counterexample :
    (put_pil_full (some 250)
        ⟨[("a", 100), ("b", 100), ("c", 100), ("d", 100), ("e", 100)], [], 500, 10, 16⟩
        "f" 100).full_limit = 8 ∧
    (put_pil_full (some 250)
        ⟨[("a", 100), ("b", 100), ("c", 100), ("d", 100), ("e", 100)], [], 500, 10, 16⟩
        "f" 100).full.length = 2 := by
  decide

/-- C6 (amended): memory-budget eviction.  With a sound byte accountant
and a sampled budget target `t`: (1) after an insert into the
full-resolution tier settles, the tracked bytes are at most `t` and the
accountant stays sound, and (2) the same holds for an insert into the
preview (half) tier; (3) the half tier is only touched by budget
eviction after the full tier has been fully drained; (4) when the
budget loop evicts from a non-empty full tier, the tier's cap is shrunk
to its post-eviction count clamped below at the floor 8 and above by
the old cap, and (5) likewise for the half tier with floor 16 (its loop
runs on the bytes left by the full stage); (6) when `psutil` is
unavailable (no sampled target), no budget is enforced at all. -/
theorem memory_budget_eviction (st : CacheState) (k : String) (sz t : Nat) :
    (CacheWF st →
      (put_pil_full (some t) st k sz).estimated_bytes ≤ t ∧
      CacheWF (put_pil_full (some t) st k sz)) ∧
    (CacheWF st →
      (put_pil_half (some t) st k sz).estimated_bytes ≤ t ∧
      CacheWF (put_pil_half (some t) st k sz)) ∧
    ((enforce_memory_budget (some t) st).half ≠ st.half →
      (enforce_memory_budget (some t) st).full = []) ∧
    (st.estimated_bytes > t → st.full ≠ [] →
      (enforce_memory_budget (some t) st).full_limit =
        max 8 (min st.full_limit (enforce_memory_budget (some t) st).full.length)) ∧
    ((evictBudget t 8 st.full st.estimated_bytes st.full_limit).2.1 > t →
      st.half ≠ [] →
      (enforce_memory_budget (some t) st).half_limit =
        max 16 (min st.half_limit (enforce_memory_budget (some t) st).half.length)) ∧
    enforce_memory_budget none st = st := by
  refine ⟨?_, ?_, ?_, ?_, ?_, rfl⟩
  · intro hwf
    unfold CacheWF at hwf
    have hwf1 : (match (odPop st.full k).1 with
        | some psz => st.estimated_bytes - psz
        | none => st.estimated_bytes) + sz =
        tierBytes ((odPop st.full k).2 ++ [(k, sz)]) + tierBytes st.half := by
      split
      · rename_i v hp
        show st.estimated_bytes - v + sz =
          tierBytes ((odPop st.full k).2 ++ [(k, sz)]) + tierBytes st.half
        have hsome := odPop_some st.full k v hp
        rw [tierBytes_append]
        simp only [tierBytes_cons, tierBytes_nil]
        omega
      · rename_i hp
        show st.estimated_bytes + sz =
          tierBytes ((odPop st.full k).2 ++ [(k, sz)]) + tierBytes st.half
        rw [odPop_none st.full k hp, tierBytes_append]
        simp only [tierBytes_cons, tierBytes_nil]
        omega
    have hwf2 := evictOverLimit_bytes st.full_limit ((odPop st.full k).2 ++ [(k, sz)])
      _ (tierBytes st.half) hwf1
    exact enforce_budget_sound t
      { st with
        full := (evictOverLimit st.full_limit ((odPop st.full k).2 ++ [(k, sz)])
          ((match (odPop st.full k).1 with
            | some psz => st.estimated_bytes - psz
            | none => st.estimated_bytes) + sz)).1
        estimated_bytes := (evictOverLimit st.full_limit ((odPop st.full k).2 ++ [(k, sz)])
          ((match (odPop st.full k).1 with
            | some psz => st.estimated_bytes - psz
            | none => st.estimated_bytes) + sz)).2 }
      hwf2
  · intro hwf
    unfold CacheWF at hwf
    have hwf1 : (match (odPop st.half k).1 with
        | some psz => st.estimated_bytes - psz
        | none => st.estimated_bytes) + sz =
        tierBytes ((odPop st.half k).2 ++ [(k, sz)]) + tierBytes st.full := by
      split
      · rename_i v hp
        show st.estimated_bytes - v + sz =
          tierBytes ((odPop st.half k).2 ++ [(k, sz)]) + tierBytes st.full
        have hsome := odPop_some st.half k v hp
        rw [tierBytes_append]
        simp only [tierBytes_cons, tierBytes_nil]
        omega
      · rename_i hp
        show st.estimated_bytes + sz =
          tierBytes ((odPop st.half k).2 ++ [(k, sz)]) + tierBytes st.full
        rw [odPop_none st.half k hp, tierBytes_append]
        simp only [tierBytes_cons, tierBytes_nil]
        omega
    have hwf2 := evictOverLimit_bytes st.half_limit ((odPop st.half k).2 ++ [(k, sz)])
      _ (tierBytes st.full) hwf1
    refine enforce_budget_sound t
      { st with
        half := (evictOverLimit st.half_limit ((odPop st.half k).2 ++ [(k, sz)])
          ((match (odPop st.half k).1 with
            | some psz => st.estimated_bytes - psz
            | none => st.estimated_bytes) + sz)).1
        estimated_bytes := (evictOverLimit st.half_limit ((odPop st.half k).2 ++ [(k, sz)])
          ((match (odPop st.half k).1 with
            | some psz => st.estimated_bytes - psz
            | none => st.estimated_bytes) + sz)).2 }
      ?_
    show (evictOverLimit st.half_limit ((odPop st.half k).2 ++ [(k, sz)])
        ((match (odPop st.half k).1 with
          | some psz => st.estimated_bytes - psz
          | none => st.estimated_bytes) + sz)).2 =
      tierBytes st.full +
      tierBytes (evictOverLimit st.half_limit ((odPop st.half k).2 ++ [(k, sz)])
        ((match (odPop st.half k).1 with
          | some psz => st.estimated_bytes - psz
          | none => st.estimated_bytes) + sz)).1
    omega
  · intro hne
    unfold enforce_memory_budget at hne ⊢
    simp only at hne ⊢
    by_cases hb2 : (evictBudget t 8 st.full st.estimated_bytes st.full_limit).2.1 > t
    · rcases evictBudget_stop t 8 st.full st.estimated_bytes st.full_limit with h | h
      · omega
      · exact h
    · exact absurd
        (congrArg Prod.fst (evictBudget_noop t 16 st.half _ st.half_limit hb2)) hne
  · intro hb hne
    unfold enforce_memory_budget
    simp only
    exact evictBudget_lim t 8 st.full st.estimated_bytes st.full_limit hb hne
  · intro hb hne
    unfold enforce_memory_budget
    simp only
    exact evictBudget_lim t 16 st.half _ st.half_limit hb hne

/-- Witness for C6 (amended): one-entry caches under a 3-byte target
receive a 2-byte insert into each tier, settling at 2 tracked bytes
≤ 3; and over-budget states drive each tier's cap to
`max floor (min cap count)` (floors 8 and 16). -/
theorem memory_budget_eviction_witness :
    (put_pil_full (some 3) ⟨[("a", 4)], [], 4, 32, 64⟩ "b" 2).estimated_bytes ≤ 3 ∧
    (put_pil_half (some 3) ⟨[], [("a", 4)], 4, 32, 64⟩ "b" 2).estimated_bytes ≤ 3 ∧
    (enforce_memory_budget (some 3) ⟨[("a", 4), ("b", 2)], [], 6, 32, 64⟩).full_limit =
      max 8 (min 32
        (enforce_memory_budget (some 3) ⟨[("a", 4), ("b", 2)], [], 6, 32, 64⟩).full.length) ∧
    (enforce_memory_budget (some 3) ⟨[], [("a", 4), ("b", 2)], 6, 32, 64⟩).half_limit =
      max 16 (min 64
        (enforce_memory_budget (some 3) ⟨[], [("a", 4), ("b", 2)], 6, 32, 64⟩).half.length) := by
  refine ⟨((memory_budget_eviction ⟨[("a", 4)], [], 4, 32, 64⟩ "b" 2 3).1 rfl).1,
    ((memory_budget_eviction ⟨[], [("a", 4)], 4, 32, 64⟩ "b" 2 3).2.1 rfl).1, ?_, ?_⟩
  · exact (memory_budget_eviction ⟨[("a", 4), ("b", 2)], [], 6, 32, 64⟩ "x" 0 3).2.2.2.1
      (by decide) (by decide)
  · exact (memory_budget_eviction ⟨[], [("a", 4), ("b", 2)], 6, 32, 64⟩ "x" 0 3).2.2.2.2.1
      (by decide) (by decide)

/-- C9: Backend-unavailable degradation.  When the exiftool executable
cannot be resolved (`EXIFTOOL_PATH is None`), every read returns the
empty map and every write returns `False`, whatever the filesystem and
payload look like; both functions are total, so neither raises. -/
theorem backend_unavailable_noop (env : ReadEnv) (wenv : WriteEnv)
    (data : WritePayload) :
    read_xmp_sidecar none env = emptyRead ∧
    write_xmp_sidecar none wenv data = (false, false) :=
  ⟨rfl, rfl⟩

/-- C10: Implicit no-op write success.  With exiftool available and a
payload producing no tag arguments (no recognised key survives the
filters), `write_xmp_sidecar` returns `True` without invoking exiftool —
after the sidecar-preparation step, which is assumed not to raise. -/
theorem noop_write_success (e : String) (env : WriteEnv) (data : WritePayload)
    (hprep : env.prepare_raises = false) (hargs : xmp_tag_args data = []) :
    write_xmp_sidecar (some e) env data = (true, false) := by
  simp [write_xmp_sidecar, hprep, hargs]

/-- Witness for C10: a payload carrying `rating = None` and
`selected = None` and no label key produces no tag arguments and
succeeds without an exiftool run. -/
theorem noop_write_success_witness :
    write_xmp_sidecar (some "exiftool") ⟨false, false, 0⟩
      ⟨some .pyNone, none, some .pyNone⟩ = (true, false) :=
  noop_write_success "exiftool" ⟨false, false, 0⟩
    ⟨some .pyNone, none, some .pyNone⟩ rfl rfl

end SRP
